import Mathlib

/-!
Verification development for the sports-data ingestion pipeline
(`scripts/ingest.py`, `scripts/update_vector_db.py`, `src/tools/retriever.py`,
`src/models.py`).

The Python code is shallowly embedded: raw feed payloads (JSON-decoded Python
values) are modelled by the inductive type `Json`; dictionary lookups that can
raise (`d[k]`) return `Except`, defaulted lookups (`d.get(k, default)`) are
total on dictionaries and raise (`Except.error`) on non-dictionaries, exactly
as in Python.  Machine-level collaborators that are not part of the repository
(the MD5 digest from `hashlib`, `json.loads` in the retriever) are modelled by
deterministic stand-ins / by an explicit function parameter; only the
properties the code relies on (determinism, non-empty hex output) are used.
-/

/-- A JSON-decoded Python value, as produced by `json.loads` / the feed.
Numbers are modelled as integers (the feed carries ids and scores as strings
or integers; no claim depends on float behaviour).  Objects are association
lists; Python dictionaries additionally guarantee key uniqueness, which
theorems assume explicitly where needed. -/
inductive Json where
  | null
  | bool (b : Bool)
  | num (n : Int)
  | str (s : String)
  | arr (xs : List Json)
  | obj (kvs : List (String × Json))

instance : Inhabited Json := ⟨Json.null⟩

namespace Json

/-- Python `x == s` for a string literal `s` (used for status comparisons and
the recognized-stat test): true exactly when `x` is that string. -/
def isStr (j : Json) (s : String) : Bool :=
  match j with
  | .str t => t == s
  | _ => false

/-- Python truthiness (`if x:`) of a JSON-decoded value: `None`, `False`, `0`,
`""`, `[]`, `{}` are falsy, everything else truthy. -/
def pyTruthy : Json → Bool
  | .null => false
  | .bool b => b
  | .num n => n != 0
  | .str s => !s.isEmpty
  | .arr xs => !xs.isEmpty
  | .obj l => !l.isEmpty

/-- `str(x)` as used by f-string interpolation.  Faithful for the scalar
values the pipeline interpolates (`None`, booleans, numbers, strings);
container rendering is approximated by a JSON-ish rendering and is not
exercised by any claim. -/
def pyToStr : Json → String
  | .null => "None"
  | .bool true => "True"
  | .bool false => "False"
  | .num n => toString n
  | .str s => s
  | .arr _ => "[...]"
  | .obj _ => "\x7b...\x7d"

/-- Raw key lookup on an object; `none` when the key is absent or the value is
not an object (callers that must distinguish the non-dictionary case use
`get`/`item` below, which raise as Python does). -/
def lookup? : Json → String → Option Json
  | .obj l, k => l.lookup k
  | _, _ => none

/-- Python `d.get(k, default)`: total on dictionaries, `AttributeError` on
anything else. -/
def get (j : Json) (k : String) (d : Json) : Except String Json :=
  match j with
  | .obj l => .ok ((l.lookup k).getD d)
  | _ => .error "AttributeError: get"

/-- Python `d[k]` on a dictionary: `KeyError` when the key is absent,
`TypeError` on a non-dictionary. -/
def item (j : Json) (k : String) : Except String Json :=
  match j with
  | .obj l =>
      match l.lookup k with
      | some v => .ok v
      | none => .error ("KeyError: " ++ k)
  | _ => .error "TypeError: not subscriptable"

/-- Python `x[i]` for a non-negative index: list indexing (IndexError when out
of range), string indexing (a one-character string), error otherwise. -/
def itemAt (j : Json) (i : Nat) : Except String Json :=
  match j with
  | .arr xs =>
      match xs.get? i with
      | some v => .ok v
      | none => .error "IndexError: list index out of range"
  | .str s =>
      match s.data.get? i with
      | some c => .ok (.str (String.mk [c]))
      | none => .error "IndexError: string index out of range"
  | _ => .error "TypeError: not subscriptable"

/-- Python iteration `for x in j`: yields the elements of a list, errors on the
kinds of values the pipeline never iterates (string iteration is not used by
the embedded code paths). -/
def elems (j : Json) : Except String (List Json) :=
  match j with
  | .arr xs => .ok xs
  | _ => .error "TypeError: not iterable"

end Json

/-! ### Python string primitives

`str.split(',')`, `str.strip()`, `", ".join(...)` and the `in` substring test
are embedded at the character-list level so that their algebra is provable. -/

/-- Python `s.split(sep)` for a one-character separator: splitting the empty
string yields `[""]`, and `n` separators yield `n+1` pieces. -/
def splitChar (sep : Char) : List Char → List (List Char)
  | [] => [[]]
  | c :: t =>
      let r := splitChar sep t
      if c = sep then [] :: r
      else
        match r with
        | h :: t' => (c :: h) :: t'
        | [] => [[c]]

/-- Whitespace for Python `str.strip()` (space, tab, newline, carriage return,
form feed, vertical tab; the values cleaned by the pipeline only ever carry
plain spaces). -/
def isPySpace (c : Char) : Bool :=
  c = ' ' || c = '\t' || c = '\n' || c = '\r' || c = '\x0b' || c = '\x0c'

/-- Python `s.strip()`: drop whitespace from both ends. -/
def stripChars (s : List Char) : List Char :=
  ((s.dropWhile isPySpace).reverse.dropWhile isPySpace).reverse

/-- Python `sep.join(pieces)`. -/
def joinWith (sep : List Char) : List (List Char) → List Char
  | [] => []
  | [p] => p
  | p :: ps => p ++ sep ++ joinWith sep ps

/-- Python `needle in hay` on strings (substring test). -/
def containsSub (hay needle : List Char) : Bool :=
  (List.range (hay.length + 1)).any fun i => needle.isPrefixOf (hay.drop i)

/-- Substring test on `String`s (Python `in`). -/
def strContains (hay needle : String) : Bool :=
  containsSub hay.data needle.data

/-- `scripts/ingest.py`, `clean_display_value`: removes comma-separated
components containing `/` (ratios like `354/492`), strips and rejoins the
rest; returns `"N/A"` for a falsy (empty) input, and the original value when
every component was dropped. -/
def clean_display_value (val : String) : String :=
  if val.isEmpty then "N/A"
  else
    let parts := splitChar ',' val.data
    let cleaned := (parts.filter (fun p => !p.contains '/')).map stripChars
    if cleaned.isEmpty then val
    else String.mk (joinWith (", ".data) cleaned)

example : clean_display_value "354/492, 18 TD" = "18 TD" := by decide
example : clean_display_value "" = "N/A" := by decide
example : clean_display_value "354/492" = "354/492" := by decide
example : clean_display_value " " = "" := by decide
example : clean_display_value (clean_display_value " ") = "N/A" := by decide

/-! ### Canonical serialization and digests

`hashlib.md5(...).hexdigest()` is an external library call; it is modelled by
a deterministic stand-in.  Only the properties the pipeline relies on are
used: it is a function of its input (determinism) and its hex output is a
non-empty string (a real MD5 hexdigest has 32 characters). -/

/-- Deterministic stand-in for `hashlib.md5(s.encode()).hexdigest()`. -/
def md5Hex (s : String) : String :=
  "h" ++ toString (s.data.foldl (fun a c => (a * 65599 + c.toNat) % 1099511627689) 5381)

theorem md5Hex_ne_empty (s : String) : md5Hex s ≠ "" := by
  intro h
  have : ("h" ++ toString (s.data.foldl (fun a c => (a * 65599 + c.toNat) % 1099511627689) 5381)).data = "".data := by
    rw [← md5Hex, h]
  simp [String.data_append] at this

/-- Comparator used to sort object keys (`sort_keys=True` sorts the items of a
dictionary; keys are unique in a dictionary, so comparison never reaches the
values). -/
def keyLe (a b : String × Json) : Bool := decide (a.1 ≤ b.1)

mutual
/-- Recursively sort every object's entries by key — the canonicalization that
`json.dumps(raw_data, sort_keys=True)` applies at every nesting level. -/
def sortJson : Json → Json
  | .obj l => .obj ((sortEntries l).mergeSort keyLe)
  | .arr xs => .arr (sortArr xs)
  | j => j

def sortEntries : List (String × Json) → List (String × Json)
  | [] => []
  | (k, v) :: t => (k, sortJson v) :: sortEntries t

def sortArr : List Json → List Json
  | [] => []
  | x :: t => sortJson x :: sortArr t
end

/-- JSON string escaping as in `json.dumps` (the claims do not depend on the
exact escape table; quotes, backslashes and the common control characters are
escaped). -/
def jsonEscape (s : String) : String :=
  String.mk (s.data.foldr (fun c acc =>
    if c = '"' then '\\' :: '"' :: acc
    else if c = '\\' then '\\' :: '\\' :: acc
    else if c = '\n' then '\\' :: 'n' :: acc
    else if c = '\t' then '\\' :: 't' :: acc
    else if c = '\r' then '\\' :: 'r' :: acc
    else c :: acc) [])

mutual
/-- Serialize a `Json` value in order, with the default `json.dumps`
separators (`", "` and `": "`). -/
def dumpsRaw : Json → String
  | .null => "null"
  | .bool true => "true"
  | .bool false => "false"
  | .num n => toString n
  | .str s => "\"" ++ jsonEscape s ++ "\""
  | .arr xs => "[" ++ dumpsArr xs ++ "]"
  | .obj l => "\x7b" ++ dumpsMembers l ++ "\x7d"

def dumpsArr : List Json → String
  | [] => ""
  | [x] => dumpsRaw x
  | x :: t => dumpsRaw x ++ ", " ++ dumpsArr t

def dumpsMembers : List (String × Json) → String
  | [] => ""
  | [(k, v)] => "\"" ++ jsonEscape k ++ "\": " ++ dumpsRaw v
  | (k, v) :: t => "\"" ++ jsonEscape k ++ "\": " ++ dumpsRaw v ++ ", " ++ dumpsMembers t
end

/-- `json.dumps(raw_data, sort_keys=True)`: serialize with every object's
entries in sorted key order. -/
def dumps (j : Json) : String := dumpsRaw (sortJson j)

/-- The content hash computed in `extract_smart_metadata`
(`scripts/ingest.py` line 99):
`hashlib.md5(json.dumps(raw_data, sort_keys=True).encode()).hexdigest()`. -/
def content_hash (raw : Json) : String := md5Hex (dumps raw)

/-! ### The ingestion pipeline (`scripts/ingest.py`) -/

/-- Monadic map written as the explicit recursion performed by the Python
`for` loops that append to an accumulator list. -/
def mapME {α β : Type} (f : α → Except String β) : List α → Except String (List β)
  | [] => pure []
  | a :: t => do
      let b ← f a
      let bs ← mapME f t
      pure (b :: bs)

/-- Python `k in j` (membership test): key test on dictionaries, substring
test on strings, element equality on lists, `TypeError` otherwise. -/
def Json.member (j : Json) (k : String) : Except String Bool :=
  match j with
  | .obj l => .ok (l.any (fun p => p.1 == k))
  | .str s => .ok (strContains s k)
  | .arr xs => .ok (xs.any (fun x => x.isStr k))
  | _ => .error "TypeError: argument is not iterable"

/-- `clean_display_value` applied to a JSON-decoded value, as the pipeline
does: `if not val: return "N/A"` accepts any falsy value (including `None`),
then `.split` requires a string (`AttributeError` otherwise). -/
def cleanDisplayJson (v : Json) : Except String String :=
  if !v.pyTruthy then .ok "N/A"
  else
    match v with
    | .str s => .ok (clean_display_value s)
    | _ => .error "AttributeError: split"

/-- One entry of the `all_leaders` list built by `extract_leaders`: the
dictionary `\x7b"category": ..., "data": ..., "team": ...\x7d`.  The game-level
branch stores the raw `displayName` value as the category; the team-level
branch stores the composed f-string. -/
structure Leader where
  category : Json
  data : Option Json
  team : Option Json

/-- `cat["leaders"][0] if cat.get("leaders") else None`. -/
def leaderData (cat : Json) : Except String (Option Json) := do
  let ls ← cat.get "leaders" .null
  if ls.pyTruthy then do
    let d ← ls.itemAt 0
    pure (some d)
  else
    pure none

/-- The game-level half of `extract_leaders`: the `if "leaders" in comp`
block. -/
def gameLeadersOf (comp : Json) (hasLeaders : Bool) : Except String (List Leader) :=
  if hasLeaders then do
    let cats ← (← comp.item "leaders").elems
    mapME (fun cat => do
      let dn ← cat.item "displayName"
      let data ← leaderData cat
      pure (⟨dn, data, none⟩ : Leader)) cats
  else
    pure []

/-- `scripts/ingest.py`, `extract_leaders`: merge game-level leader categories
with each competitor's own leader categories (category label prefixed by the
team abbreviation), then drop entries whose leader data is falsy. -/
def extract_leaders (comp : Json) : Except String (List Leader) := do
  let hasLeaders ← comp.member "leaders"
  let gameLeaders ← gameLeadersOf comp hasLeaders
  let competitors ← (← comp.get "competitors" (.arr [])).elems
  let teamGroups ← mapME (fun te => do
      let tname ← (← te.item "team").item "abbreviation"
      let cats ← (← te.get "leaders" (.arr [])).elems
      mapME (fun cat => do
        let dn ← cat.item "displayName"
        let data ← leaderData cat
        pure (⟨.str (tname.pyToStr ++ " " ++ dn.pyToStr), data, some tname⟩ : Leader)) cats)
    competitors
  let allLeaders := gameLeaders ++ teamGroups.flatten
  pure (allLeaders.filter (fun l =>
    match l.data with
    | some d => d.pyTruthy
    | none => false))

/-- One statistic of the `key_stats` loop in `extract_team_stats`: the
formatted entry when the stat name is one of the three recognized percentage
stats, `none` otherwise. -/
def statEntry (stat : Json) : Except String (Option String) := do
  let nm ← stat.item "name"
  if nm.isStr "fieldGoalPct" || nm.isStr "threePointPct" || nm.isStr "freeThrowPct" then do
    let ab ← stat.item "abbreviation"
    let dv ← stat.item "displayValue"
    pure (some (ab.pyToStr ++ ": " ++ dv.pyToStr ++ "%"))
  else
    pure none

/-- `scripts/ingest.py`, `extract_team_stats`. -/
def extract_team_stats (comp : Json) : Except String String := do
  let competitors ← (← comp.get "competitors" (.arr [])).elems
  let groups ← mapME (fun c => do
      let abbr ← (← c.item "team").item "abbreviation"
      let stats ← (← c.get "statistics" (.arr [])).elems
      let entries ← mapME statEntry stats
      let keyStats := entries.filterMap id
      pure (if keyStats.isEmpty then none
            else some (abbr.pyToStr ++ " [" ++ String.intercalate ", " keyStats ++ "]")))
    competitors
  pure (String.intercalate " | " (groups.filterMap id))

/-- `event.get("competitions", [\x7b\x7d])[0]` (line 56 / line 102). -/
def compOf (event : Json) : Except String Json := do
  (← event.get "competitions" (.arr [.obj []])).itemAt 0

/-- `event.get("status", \x7b\x7d).get("type", \x7b\x7d)` (line 57 / line 103). -/
def statusTypeOf (event : Json) : Except String Json := do
  (← event.get "status" (.obj [])).get "type" (.obj [])

/-- `status_obj.get("state", "pre")` (line 58): the state value that drives
text-synthesis branching. -/
def eventState (event : Json) : Except String Json := do
  (← statusTypeOf event).get "state" (.str "pre")

/-- The score-line pieces `f"\x7bc['team']['displayName']\x7d (\x7bc.get('score','0')\x7d)"`
(line 62). -/
def scoreLineParts (competitors : List Json) : Except String (List String) :=
  mapME (fun c => do
    let dn ← (← c.item "team").item "displayName"
    let sc ← c.get "score" (.str "0")
    pure (dn.pyToStr ++ " (" ++ sc.pyToStr ++ ")")) competitors

/-- One leader entry of the leader list (lines 66-69):
`f"\x7bl['category']\x7d: \x7bname\x7d (\x7bval\x7d)"`. -/
def leaderLine (l : Leader) : Except String String := do
  let d := l.data.getD .null
  let name ← (← d.get "athlete" (.obj [])).get "displayName" (.str "Unknown")
  let dv ← d.get "displayValue" (.str "")
  let val ← cleanDisplayJson dv
  pure (l.category.pyToStr ++ ": " ++ name.pyToStr ++ " (" ++ val ++ ")")

/-- The conditional expression of line 76:
`comp.get("odds", [\x7b\x7d])[0].get("details", "N/A") if comp.get("odds") else
"N/A"` (when the guard is truthy, the guard's value is the same list, so it is
indexed directly). -/
def oddsDisplay (comp : Json) : Except String Json := do
  let oddsJ ← comp.get "odds" .null
  if oddsJ.pyTruthy then do
    let o0 ← oddsJ.itemAt 0
    o0.get "details" (.str "N/A")
  else
    pure (Json.str "N/A")

/-- `scripts/ingest.py`, `transform_event_to_text`: the knowledge-card text,
branching on the status state (`pre` / `in` / anything else). -/
def transform_event_to_text (event : Json) : Except String String := do
  let comp ← compOf event
  let statusObj ← statusTypeOf event
  let state ← statusObj.get "state" (.str "pre")
  let detail ← statusObj.get "detail" (.str "TBD")
  let matchup ← event.get "name" (.str "Unknown Matchup")
  let competitors ← (← comp.get "competitors" (.arr [])).elems
  let scoreParts ← scoreLineParts competitors
  let score_line := String.intercalate " vs " scoreParts
  let leaders ← extract_leaders comp
  let leaderParts ← mapME leaderLine leaders
  let leader_text := String.intercalate " | " leaderParts
  let team_stats_text ← extract_team_stats comp
  let stats_block := if !team_stats_text.isEmpty then "TEAM STATS: " ++ team_stats_text ++ ". " else ""
  let venue ← (← comp.get "venue" (.obj [])).get "fullName" (.str "TBD")
  let odds ← oddsDisplay comp
  if state.isStr "pre" then do
    let date ← event.get "date" .null
    pure ("PREVIEW: " ++ matchup.pyToStr ++ " at " ++ venue.pyToStr ++ ". TIME: " ++
          date.pyToStr ++ ". ODDS: " ++ odds.pyToStr ++ ". PROJECTED LEADERS: " ++ leader_text ++ ".")
  else if state.isStr "in" then
    pure ("LIVE GAME (" ++ detail.pyToStr ++ "): " ++ score_line ++ ". " ++ stats_block ++
          "LEADERS: " ++ leader_text ++ ".")
  else
    pure ("FINAL SCORE: " ++ score_line ++ ". " ++ stats_block ++
          "TOP PERFORMERS: " ++ leader_text ++ ".")

/-! ### The data model (`src/models.py`) and metadata builder -/

/-- `models.PerformanceStat`.  `category`/`athlete_name`/`team` hold the
JSON-decoded feed values they are assigned from; `display_value` is the
cleaned string. -/
structure PerformanceStat where
  category : Json
  athlete_name : Json
  display_value : String
  team : Option Json

/-- `models.GameContext`; a field holds `Json.null` where Python stores
`None` (absent upstream value). -/
structure GameContext where
  venue : Json
  location : Json
  weather : Json
  odds : Json
  broadcast : Json

/-- `models.SportsMetadata`. -/
structure SportsMetadata where
  sport : String
  content_type : String
  content_hash : String
  source_file : String
  teams : List Json
  athletes : List Json
  headline : Json
  event_date : Json
  status : Json
  performers : List PerformanceStat
  context : Option GameContext
  scores : List String
  team_stats : Option String

mutual
/-- Structural equality of JSON-decoded values (Python `==` as used by
`set()` deduplication). -/
def Json.beq : Json → Json → Bool
  | .null, .null => true
  | .bool a, .bool b => a == b
  | .num a, .num b => a == b
  | .str a, .str b => a == b
  | .arr xs, .arr ys => beqArr xs ys
  | .obj l1, .obj l2 => beqObj l1 l2
  | _, _ => false

def beqArr : List Json → List Json → Bool
  | [], [] => true
  | x :: t, y :: t' => x.beq y && beqArr t t'
  | _, _ => false

def beqObj : List (String × Json) → List (String × Json) → Bool
  | [], [] => true
  | (k, v) :: t, (k', v') :: t' => k == k' && v.beq v' && beqObj t t'
  | _, _ => false
end

/-- `list(set(xs))`: deduplicate by value.  CPython's `set` iteration order is
unspecified; first-occurrence order is used here, and no claim depends on the
order of the `teams`/`athletes` index lists. -/
def pySetList (l : List Json) : List Json :=
  l.foldl (fun acc x => if acc.any (fun y => y.beq x) then acc else acc ++ [x]) []

/-- The conditional expression of line 123:
`odds_list[0].get("details") if odds_list else "N/A"`. -/
def oddsMeta (odds_list : Json) : Except String Json :=
  if odds_list.pyTruthy then do
    (← odds_list.itemAt 0).get "details" .null
  else
    pure (Json.str "N/A")

/-- `scripts/ingest.py`, `extract_smart_metadata`.  The `stable_id` parameter
is accepted and unused, as in the source. -/
def extract_smart_metadata (raw : Json) (filename : String) (_stable_id : String) :
    Except String SportsMetadata := do
  let is_news := strContains filename "news"
  let sport := if strContains filename "nba" then "nba" else "nfl"
  let c_hash := content_hash raw
  if !is_news then do
    let comp ← compOf raw
    let statusObj ← statusTypeOf raw
    let compList ← (← comp.get "competitors" (.arr [])).elems
    let teamScores ← mapME (fun c => do
        let dn ← (← c.item "team").item "displayName"
        let sc ← c.get "score" (.str "0")
        pure (dn, dn.pyToStr ++ " " ++ sc.pyToStr)) compList
    let teams := teamScores.map Prod.fst
    let score_list := teamScores.map Prod.snd
    let raw_leaders ← extract_leaders comp
    let perf ← mapME (fun l => do
        let d := l.data.getD .null
        let name ← (← d.get "athlete" (.obj [])).get "displayName" (.str "Unknown")
        let dv ← d.get "displayValue" (.str "")
        let val ← cleanDisplayJson dv
        pure (name, (⟨l.category, name, val, l.team⟩ : PerformanceStat))) raw_leaders
    let athletes := perf.map Prod.fst
    let performers := perf.map Prod.snd
    let weather ← (← raw.get "weather" (.obj [])).get "displayValue" (.str "")
    let odds_list ← comp.get "odds" (.arr [])
    let odds ← oddsMeta odds_list
    let venue ← (← comp.get "venue" (.obj [])).get "fullName" .null
    let location ← (← (← comp.get "venue" (.obj [])).get "address" (.obj [])).get "city" .null
    let broadcast ← raw.get "broadcast" .null
    let context : GameContext := ⟨venue, location, weather, odds, broadcast⟩
    let team_stats_str ← extract_team_stats comp
    let headline ← raw.get "name" .null
    let event_date ← raw.get "date" .null
    let status ← statusObj.get "state" .null
    pure ⟨sport, "score", c_hash, filename, pySetList teams, pySetList athletes,
          headline, event_date, status, performers, some context, score_list,
          some team_stats_str⟩
  else do
    let headline ← raw.get "headline" .null
    let event_date ← raw.get "published" .null
    let status := Json.str "news"
    let cats ← (← raw.get "categories" (.arr [])).elems
    let tagged ← mapME (fun cat => do
        let ty ← cat.get "type" .null
        if ty.isStr "team" then do
          let d ← cat.get "description" .null
          pure (some (true, d))
        else if ty.isStr "athlete" then do
          let d ← cat.get "description" .null
          pure (some (false, d))
        else
          pure none) cats
    let teams := (tagged.filterMap id).filterMap (fun p => if p.1 then some p.2 else none)
    let athletes := (tagged.filterMap id).filterMap (fun p => if !p.1 then some p.2 else none)
    pure ⟨sport, "news", c_hash, filename, pySetList teams, pySetList athletes,
          headline, event_date, status, [], none, [], none⟩

/-! ### Stable identifier and in-batch deduplication (`run_ingestion`) -/

/-- The stable-id logic of `run_ingestion` (lines 177-186): the upstream `id`
when truthy, otherwise the digest of the serialized record text
(`doc.page_content`), prefixed with `"doc-"`. -/
def recordId (raw : Json) (pageContent : String) : Except String String := do
  let entityId ← raw.get "id" .null
  let e := if entityId.pyTruthy then entityId.pyToStr else md5Hex pageContent
  pure ("doc-" ++ e)

/-- One assembled record of the ingestion batch, keyed by its stable id;
`chunk_text` stands for the rest of the payload (the deduplication step keys
only on `id` and keeps whole records). -/
structure IngestRecord where
  id : String
  chunk_text : String

/-- Insertion into a Python dictionary: an existing key keeps its position and
gets the new value; a new key is appended. -/
def dictInsert (m : List (String × IngestRecord)) (k : String) (v : IngestRecord) :
    List (String × IngestRecord) :=
  if m.any (fun p => p.1 == k) then m.map (fun p => if p.1 == k then (p.1, v) else p)
  else m ++ [(k, v)]

/-- `list(\x7br['id']: r for r in all_records\x7d.values())` (line 209): the
batch-level deduplication before handoff to the store. -/
def dedupLocal (rs : List IngestRecord) : List IngestRecord :=
  (rs.foldl (fun m r => dictInsert m r.id r) []).map Prod.snd

/-! ### The retriever (`src/tools/retriever.py`) -/

/-- One element of the `results` list built by `SportsRetriever.search`. -/
structure SearchResult where
  score : Json
  text : Json
  headline : Json
  date : Json
  performers : Json
  context : Json

/-- The per-hit body of the `for hit in ...` loop of `SportsRetriever.search`
(lines 41-66).  `json.loads` is an external library call, passed in as the
`loads` parameter (`none` = the string is malformed and `json.loads` raises);
the inner `try/except: pass` blocks make the nested deserialization total,
falling back to the empty list / empty dictionary. -/
def processHit (loads : String → Option Json) (hit : Json) : Except String SearchResult := do
  let fields ← hit.get "fields" (.obj [])
  let hasPerf ← fields.member "performers"
  let performers :=
    if hasPerf then
      match fields.lookup? "performers" with
      | some (.str s) => (loads s).getD (.arr [])
      | _ => .arr []
    else .arr []
  let hasCtx ← fields.member "context"
  let context :=
    if hasCtx then
      match fields.lookup? "context" with
      | some (.str s) => (loads s).getD (.obj [])
      | _ => .obj []
    else .obj []
  let score ← hit.get "_score" .null
  let text ← fields.get "chunk_text" .null
  let headline ← fields.get "headline" .null
  let date ← fields.get "event_date" .null
  pure ⟨score, text, headline, date, performers, context⟩

/-- The result-assembly part of `SportsRetriever.search` applied to the
decoded store response (`response.get("result", \x7b\x7d).get("hits", [])`). -/
def searchBody (loads : String → Option Json) (response : Json) :
    Except String (List SearchResult) := do
  let hits ← (← (← response.get "result" (.obj [])).get "hits" (.arr [])).elems
  mapME (processHit loads) hits

/-- `SportsRetriever.search`: the outer `try/except` returns `[]` on any
exception. -/
def search (loads : String → Option Json) (response : Json) : List SearchResult :=
  match searchBody loads response with
  | .ok rs => rs
  | .error _ => []

/-! ### `scripts/update_vector_db.py`, `SportsDataSync.process_scores`

Only the record fields backed by fallible accesses are modelled; the
`discovery` block reuses values already fetched. -/

/-- The fields of one record built by `process_scores` for one event. -/
structure SyncScoreRecord where
  id : String
  chunk_text : Json
  headline : Json
  status : Json
  event_date : Json
  scores : List String
  teams : List Json

/-- The body of the `for ev in data.get("events", [])` loop of
`process_scores` (lines 64-83): every access is a direct subscript and raises
on a missing key. -/
def process_scores_record (ev : Json) : Except String SyncScoreRecord := do
  let comp ← (← ev.item "competitions").itemAt 0
  let competitors ← (← comp.item "competitors").elems
  let scores ← mapME (fun t => do
      let dn ← (← t.item "team").item "displayName"
      let sc ← t.item "score"
      pure (dn.pyToStr ++ " " ++ sc.pyToStr)) competitors
  let headline ← ev.item "name"
  let status ← (← (← ev.item "status").item "type").item "state"
  let event_date ← ev.item "date"
  let teams ← mapME (fun t => do (← t.item "team").item "displayName") competitors
  let i ← ev.item "id"
  pure ⟨"score-" ++ i.pyToStr, headline, headline, status, event_date, scores, teams⟩

/-- `SportsDataSync.process_scores`. -/
def process_scores (data : Json) : Except String (List SyncScoreRecord) := do
  let evs ← (← data.get "events" (.arr [])).elems
  mapME process_scores_record evs

/-! ### Well-formedness of feed shapes

The graceful-degradation contract holds only on shapes whose *required*
fields are present; the predicates below state exactly which lookups the
ingestion code performs with a raising subscript (`d[k]`) rather than a
defaulted `get`. -/

inductive JEquiv : Json → Json → Prop where
  | null : JEquiv .null .null
  | bool (b : Bool) : JEquiv (.bool b) (.bool b)
  | num (n : Int) : JEquiv (.num n) (.num n)
  | str (s : String) : JEquiv (.str s) (.str s)
  | arr {xs ys : List Json} (hlen : xs.length = ys.length)
      (helem : ∀ i (h1 : i < xs.length) (h2 : i < ys.length),
        JEquiv (xs.get ⟨i, h1⟩) (ys.get ⟨i, h2⟩)) :
      JEquiv (.arr xs) (.arr ys)
  | obj {l1 l2 : List (String × Json)}
      (hn1 : (l1.map Prod.fst).Nodup) (hn2 : (l2.map Prod.fst).Nodup)
      (hkeys : (l1.map Prod.fst).Perm (l2.map Prod.fst))
      (hval : ∀ k v1 v2, (k, v1) ∈ l1 → (k, v2) ∈ l2 → JEquiv v1 v2) :
      JEquiv (.obj l1) (.obj l2)

/-! ### Concrete feed records used as test inputs -/

/-- A finished game with two competitors (110/98) and one game-level leader
category whose athlete's display value is `"354/492, 22 AST"`. -/
def postGameEvent : Json := .obj [
  ("id", .str "401585601"),
  ("name", .str "TeamA at TeamB"),
  ("date", .str "2024-01-01T00:00Z"),
  ("status", .obj [("type", .obj [("state", .str "post"), ("detail", .str "Final")])]),
  ("competitions", .arr [.obj [
     ("competitors", .arr [
        .obj [("team", .obj [("displayName", .str "TeamA"), ("abbreviation", .str "TA")]),
              ("score", .str "110")],
        .obj [("team", .obj [("displayName", .str "TeamB"), ("abbreviation", .str "TB")]),
              ("score", .str "98")]]),
     ("leaders", .arr [.obj [
        ("displayName", .str "Assists"),
        ("leaders", .arr [.obj [
           ("athlete", .obj [("displayName", .str "Star Guard")]),
           ("displayValue", .str "354/492, 22 AST")]])]])]])]

/-- A scheduled game whose competition carries no `odds` array. -/
def noOddsEvent : Json := .obj [
  ("id", .str "401777"),
  ("name", .str "A at B"),
  ("date", .str "2024-02-02T00:00Z"),
  ("status", .obj [("type", .obj [("state", .str "pre")])]),
  ("competitions", .arr [.obj [("venue", .obj [("fullName", .str "Arena")])]])]

/-- A scheduled event whose own `name` field happens to contain the phrase
`"FINAL SCORE"`. -/
def advNameEvent : Json := .obj [("name", .str "FINAL SCORE watch")]

/-- A raw record whose `id` field is present but empty (falsy). -/
def emptyIdRecord : Json := .obj [("id", .str "")]

/-- The fields mapping of a store hit whose serialized `performers` and
`context` strings are malformed. -/
def malformedHitFields : Json := .obj [
  ("performers", .str "\x7boops"),
  ("context", .str "\x7boops"),
  ("chunk_text", .str "FINAL SCORE: TeamA (110) vs TeamB (98)."),
  ("headline", .str "TeamA at TeamB")]

/-- A store hit carrying `malformedHitFields`. -/
def malformedHit : Json := .obj [("_score", .num 1), ("fields", malformedHitFields)]

/-- Stand-in for `json.loads` failing (raising) on every input. -/
def failLoads : String → Option Json := fun _ => none

/-- Stand-in for `json.loads` that parses the well-formed string `"[]"` and
fails (raises) on every other input. -/
def pickyLoads : String → Option Json := fun s =>
  if s == "[]" then some (.arr []) else none

/-- Fields of a store hit whose serialized `performers` string is malformed
while its `context` string is well-formed. -/
def oneBadHitFields : List (String × Json) := [
  ("performers", .str "\x7boops"),
  ("context", .str "[]"),
  ("chunk_text", .str "FINAL SCORE: TeamA (110) vs TeamB (98)."),
  ("headline", .str "TeamA at TeamB")]

/-- A store hit carrying `oneBadHitFields`. -/
def oneBadHit : Json := .obj [("_score", .num 1), ("fields", .obj oneBadHitFields)]

/-- A raw record with keys out of order at both nesting levels. -/
def reorderedA : Json := .obj [("b", .num 2), ("a", .obj [("y", .str "s"), ("x", .null)])]

/-- The same record as `reorderedA` with the keys of every object reordered. -/
def reorderedB : Json := .obj [("a", .obj [("x", .null), ("y", .str "s")]), ("b", .num 2)]

/-! ## Helper lemmas -/

theorem except_bind_ok {α β : Type} {x : Except String α} {f : α → Except String β} {b : β} :
    (x >>= f) = .ok b ↔ ∃ a, x = .ok a ∧ f a = .ok b := by
  cases x <;> simp [Bind.bind, Except.bind]

@[simp] theorem except_pure_eq_ok {α : Type} (a : α) :
    (pure a : Except String α) = .ok a := rfl

theorem md5Hex_data_ne_nil (s : String) : (md5Hex s).data ≠ [] := by
  unfold md5Hex
  simp [String.data_append]

/-! ## C2 — the value-cleaning policy -/

/-- C2, counterexample: the claim states
`clean_display_value("354/492") == "N/A"`, but the source falls back to the
*original* value when every comma-separated component is dropped (`return
", ".join(cleaned) if cleaned else val`). -/
theorem clean_all_dropped_counterexample :
    clean_display_value "354/492" ≠ "N/A" := by decide

/-- C2, amended: `clean_display_value` drops every comma-separated component
containing `/`, trims and rejoins the rest; it yields `"N/A"` for an empty
input, and falls back to the original string (not `"N/A"`) when every
component was dropped: `clean_display_value("354/492, 18 TD") == "18 TD"`,
`clean_display_value("") == "N/A"`, `clean_display_value("354/492") ==
"354/492"`. -/
theorem clean_display_value_policy :
    clean_display_value "354/492, 18 TD" = "18 TD" ∧
    clean_display_value "" = "N/A" ∧
    clean_display_value "354/492" = "354/492" ∧
    (∀ val : String, val.isEmpty = false →
      (splitChar ',' val.data).filter (fun p => !p.contains '/') = [] →
      clean_display_value val = val) := by
  refine ⟨by decide, by decide, by decide, ?_⟩
  intro val h1 hf
  simp only [clean_display_value]
  rw [hf]
  simp [h1]

/-- Witness for the amended C2 at the concrete input `"1/2"`. -/
theorem clean_display_value_policy_witness :
    ("1/2" : String).isEmpty = false ∧
    (splitChar ',' ("1/2" : String).data).filter (fun p => !p.contains '/') = [] ∧
    clean_display_value "1/2" = "1/2" :=
  ⟨by decide, by decide, clean_display_value_policy.2.2.2 "1/2" (by decide) (by decide)⟩

/-! ## C8 — end-to-end scenario for a finished game -/

/-- C8: for the two-competitor event with scores 110/98, status `post` and
one game-level leader (`"354/492, 22 AST"` cleaned to `"22 AST"`), the
synthesized chunk text starts with
`"FINAL SCORE: TeamA (110) vs TeamB (98)."` and the stored metadata scores
are `["TeamA 110", "TeamB 98"]`, in source competitor order. -/
theorem final_score_scenario :
    transform_event_to_text postGameEvent =
      .ok ("FINAL SCORE: TeamA (110) vs TeamB (98)." ++
           " TOP PERFORMERS: Assists: Star Guard (22 AST).") ∧
    (extract_smart_metadata postGameEvent "nba-score.json" "doc-401585601").map
      SportsMetadata.scores = .ok ["TeamA 110", "TeamB 98"] := ⟨rfl, rfl⟩

/-! ## C3 — display fallback vs. stored placeholder for odds -/

/-- C3, counterexample: for an event whose competition has no `odds` array,
the claim states the stored structured metadata contains no odds field at
all; but `extract_smart_metadata` stores the placeholder string `"N/A"` in
the context's `odds` field (`odds = odds_list[0].get("details") if odds_list
else "N/A"`). -/
theorem stored_odds_placeholder_counterexample :
    (compOf noOddsEvent).map (fun c => c.lookup? "odds") = .ok none ∧
    (extract_smart_metadata noOddsEvent "nba-score.json" "doc-401777").map
      (fun m => m.context.map GameContext.odds) = .ok (some (.str "N/A")) := ⟨rfl, rfl⟩

/-! ## C1 — stable identifier -/

/-- C1, counterexample: the claim states that records carrying the same `id`
field get identifier `"doc-" + id`; but a present-yet-falsy id (here the
empty string) is replaced by the digest fallback (`if not entity_id:`), so
the identifier is not `"doc-" + ""`. -/
theorem stable_id_empty_id_counterexample :
    emptyIdRecord.lookup? "id" = some (.str "") ∧
    recordId emptyIdRecord (dumps emptyIdRecord) ≠ .ok ("doc-" ++ "") := by
  refine ⟨rfl, fun h => ?_⟩
  have h' : Except.ok (ε := String) ("doc-" ++ md5Hex (dumps emptyIdRecord)) =
      .ok ("doc-" ++ "") := h
  have h2 : "doc-" ++ md5Hex (dumps emptyIdRecord) = "doc-" ++ "" := by
    injection h'
  have h3 := congrArg String.data h2
  rw [String.data_append, String.data_append] at h3
  have h4 := List.append_cancel_left h3
  exact md5Hex_data_ne_nil _ (by simpa using h4)

/-- C1, amended: for records whose `id` field is present and *truthy*, the
identifier is `"doc-" + str(id)` — identical for any two such records with
the same id value regardless of their other fields; when the `id` field is
absent **or falsy**, the identifier falls back to `"doc-" +` a deterministic
digest of the record's serialized text, so identical raw text yields an
identical identifier. -/
theorem stable_id_amended :
    (∀ (r1 r2 : Json) (t1 t2 : String) (v : Json),
      r1.get "id" .null = .ok v → r2.get "id" .null = .ok v → v.pyTruthy = true →
      recordId r1 t1 = .ok ("doc-" ++ v.pyToStr) ∧
      recordId r2 t2 = .ok ("doc-" ++ v.pyToStr)) ∧
    (∀ (r : Json) (t : String) (v : Json),
      r.get "id" .null = .ok v → v.pyTruthy = false →
      recordId r t = .ok ("doc-" ++ md5Hex t)) := by
  constructor
  · intro r1 r2 t1 t2 v h1 h2 ht
    constructor
    · unfold recordId
      rw [except_bind_ok]
      exact ⟨v, h1, by simp [ht]⟩
    · unfold recordId
      rw [except_bind_ok]
      exact ⟨v, h2, by simp [ht]⟩
  · intro r t v h1 ht
    unfold recordId
    rw [except_bind_ok]
    exact ⟨v, h1, by simp [ht]⟩

/-- Witness for the amended C1: a truthy id shared by two records that differ
in status/score, and the digest fallback for a record with no id. -/
theorem stable_id_amended_witness :
    ((Json.obj [("id", .str "401"), ("status", .str "pre")]).get "id" .null =
      .ok (.str "401") ∧
     (Json.obj [("id", .str "401"), ("status", .str "post")]).get "id" .null =
      .ok (.str "401") ∧
     (Json.str "401").pyTruthy = true ∧
     recordId (Json.obj [("id", .str "401"), ("status", .str "pre")]) "t1" =
       .ok ("doc-" ++ (Json.str "401").pyToStr) ∧
     recordId (Json.obj [("id", .str "401"), ("status", .str "post")]) "t2" =
       .ok ("doc-" ++ (Json.str "401").pyToStr)) ∧
    ((Json.obj []).get "id" .null = .ok .null ∧
     Json.null.pyTruthy = false ∧
     recordId (Json.obj []) "txt" = .ok ("doc-" ++ md5Hex "txt")) := by
  refine ⟨⟨rfl, rfl, rfl, ?_, ?_⟩, rfl, rfl, ?_⟩
  · exact (stable_id_amended.1 (Json.obj [("id", .str "401"), ("status", .str "pre")])
      (Json.obj [("id", .str "401"), ("status", .str "post")]) "t1" "t2" (.str "401") rfl rfl rfl).1
  · exact (stable_id_amended.1 (Json.obj [("id", .str "401"), ("status", .str "pre")])
      (Json.obj [("id", .str "401"), ("status", .str "post")]) "t1" "t2" (.str "401") rfl rfl rfl).2
  · exact stable_id_amended.2 (Json.obj []) "txt" .null rfl rfl

/-! ## C6 — status-dependent text synthesis -/

/-- C6, counterexample: the claim states a `pre` event's summary never
contains `"FINAL SCORE"`; but the interpolated event fields are arbitrary, so
an event whose own `name` contains that phrase produces a PREVIEW summary
containing it. -/
theorem preview_contains_final_score_counterexample :
    eventState advNameEvent = .ok (.str "pre") ∧
    (transform_event_to_text advNameEvent).map
      (fun s => strContains s "FINAL SCORE") = .ok true := ⟨rfl, rfl⟩

/-! ## C4 — graceful degradation of parsing -/

theorem getLast?_cons_eq {α : Type} (a : α) (l : List α) :
    (a :: l).getLast? = some (l.getLast?.getD a) := by
  induction l generalizing a with
  | nil => rfl
  | cons b t ih =>
    rw [List.getLast?_cons_cons, ih b]
    simp

theorem filter_key_of_nodup {i : String} : ∀ {m : List (String × IngestRecord)},
    (m.map Prod.fst).Nodup → ∀ {q}, q ∈ m → q.1 = i →
    m.filter (fun p => p.1 == i) = [q] := by
  intro m
  induction m with
  | nil => intro _ q hq; cases hq
  | cons a t ih =>
    intro hn q hq hqi
    rw [List.map_cons, List.nodup_cons] at hn
    rcases List.mem_cons.mp hq with rfl | hqt
    · rw [@List.filter_cons_of_pos _ (fun p => p.1 == i) q t (by simp [hqi])]
      have ht : t.filter (fun p => p.1 == i) = [] := by
        rw [List.filter_eq_nil_iff]
        intro p hp hpi
        apply hn.1
        have hpi' : p.1 = i := by simpa using hpi
        exact List.mem_map.mpr ⟨p, hp, by rw [hpi', ← hqi]⟩
      rw [ht]
    · have hi : i ∈ t.map Prod.fst := List.mem_map.mpr ⟨q, hqt, hqi⟩
      have ha : ¬ ((a.1 == i) = true) := by
        intro h
        exact hn.1 (by rwa [beq_iff_eq.mp h])
      rw [@List.filter_cons_of_neg _ (fun p => p.1 == i) a t ha, ih hn.2 hqt hqi]

theorem dictInsert_pairing {m : List (String × IngestRecord)} {k : String} {v : IngestRecord}
    (hm : ∀ p ∈ m, p.1 = p.2.id) (hk : k = v.id) :
    ∀ p ∈ dictInsert m k v, p.1 = p.2.id := by
  intro p hp
  unfold dictInsert at hp
  split at hp
  · obtain ⟨q, hq, hpq⟩ := List.mem_map.mp hp
    by_cases h : (q.1 == k) = true
    · rw [if_pos h] at hpq
      rw [← hpq]
      simpa [hk] using beq_iff_eq.mp h
    · rw [if_neg h] at hpq
      rw [← hpq]
      exact hm q hq
  · rcases List.mem_append.mp hp with h | h
    · exact hm p h
    · have : p = (k, v) := by simpa using h
      rw [this, hk]

theorem dictInsert_nodup {m : List (String × IngestRecord)} {k : String} {v : IngestRecord}
    (hm : (m.map Prod.fst).Nodup) :
    ((dictInsert m k v).map Prod.fst).Nodup := by
  unfold dictInsert
  split
  · have hkeys : (m.map (fun p => if p.1 == k then (p.1, v) else p)).map Prod.fst =
        m.map Prod.fst := by
      rw [List.map_map]
      apply List.map_congr_left
      intro p _
      simp only [Function.comp_apply]
      split <;> rfl
    rwa [hkeys]
  · rename_i h
    rw [List.map_append]
    refine ((List.perm_append_singleton _ _).nodup_iff).mpr ?_
    rw [List.nodup_cons]
    refine ⟨?_, hm⟩
    intro hk
    obtain ⟨q, hq, hqk⟩ := List.mem_map.mp hk
    exact h (List.any_eq_true.mpr ⟨q, hq, by simp [hqk]⟩)

theorem dictInsert_filter_eq {m : List (String × IngestRecord)} {v : IngestRecord} {i : String}
    (hn : (m.map Prod.fst).Nodup) :
    (dictInsert m i v).filter (fun p => p.1 == i) = [(i, v)] := by
  unfold dictInsert
  split
  · rename_i h
    obtain ⟨q, hq, hqi⟩ := List.any_eq_true.mp h
    have hq1 : q.1 = i := beq_iff_eq.mp hqi
    rw [List.filter_map]
    have hcomp : ((fun p : String × IngestRecord => p.1 == i) ∘
        (fun p => if p.1 == i then (p.1, v) else p)) =
        fun p : String × IngestRecord => p.1 == i := by
      funext p
      simp only [Function.comp_apply]
      split <;> rfl
    rw [hcomp, filter_key_of_nodup hn hq hq1]
    simp [hq1]
  · rename_i h
    have hm : m.filter (fun p => p.1 == i) = [] := by
      rw [List.filter_eq_nil_iff]
      intro p hp hpi
      exact h (List.any_eq_true.mpr ⟨p, hp, hpi⟩)
    rw [List.filter_append, hm]
    simp

theorem dictInsert_filter_ne {m : List (String × IngestRecord)} {k : String} {v : IngestRecord}
    {i : String} (h : (k == i) = false) :
    (dictInsert m k v).filter (fun p => p.1 == i) = m.filter (fun p => p.1 == i) := by
  unfold dictInsert
  split
  · rw [List.filter_map]
    have hcomp : ((fun p : String × IngestRecord => p.1 == i) ∘
        (fun p => if p.1 == k then (p.1, v) else p)) =
        fun p : String × IngestRecord => p.1 == i := by
      funext p
      simp only [Function.comp_apply]
      split <;> rfl
    rw [hcomp]
    refine (List.map_congr_left ?_).trans (List.map_id _)
    intro p hp
    have hpi : (p.1 == i) = true := (List.mem_filter.mp hp).2
    have hpk : ¬ ((p.1 == k) = true) := by
      intro ht
      rw [beq_iff_eq.mp ht] at hpi
      rw [h] at hpi
      exact Bool.false_ne_true hpi
    rw [if_neg hpk]
    rfl
  · rw [List.filter_append]
    have h2 : List.filter (fun p : String × IngestRecord => p.1 == i) [(k, v)] = [] := by
      simp [h]
    rw [h2, List.append_nil]

theorem foldl_dictInsert_pairing :
    ∀ (rs : List IngestRecord) (m : List (String × IngestRecord)),
      (∀ p ∈ m, p.1 = p.2.id) →
      ∀ p ∈ rs.foldl (fun m r => dictInsert m r.id r) m, p.1 = p.2.id := by
  intro rs
  induction rs with
  | nil => intro m hm; exact hm
  | cons r rs ih =>
    intro m hm
    rw [List.foldl_cons]
    exact ih _ (dictInsert_pairing hm rfl)

theorem foldl_dictInsert_filter (i : String) :
    ∀ (rs : List IngestRecord) (m : List (String × IngestRecord)),
      (∀ p ∈ m, p.1 = p.2.id) → (m.map Prod.fst).Nodup →
      (rs.foldl (fun m r => dictInsert m r.id r) m).filter (fun p => p.1 == i) =
        (match (rs.filter (fun r => r.id == i)).getLast? with
         | some r => [(i, r)]
         | none => m.filter (fun p => p.1 == i)) := by
  intro rs
  induction rs with
  | nil => intro m _ _; rfl
  | cons r rs ih =>
    intro m hp hn
    rw [List.foldl_cons, ih _ (dictInsert_pairing hp rfl) (dictInsert_nodup hn)]
    by_cases hr : (r.id == i) = true
    · have hri : r.id = i := beq_iff_eq.mp hr
      rw [@List.filter_cons_of_pos _ (fun r => r.id == i) r rs hr]
      cases hlast : (rs.filter (fun r => r.id == i)).getLast? with
      | some r' => rw [getLast?_cons_eq, hlast]; simp
      | none =>
        rw [getLast?_cons_eq, hlast, hri]
        show List.filter (fun p => p.1 == i) (dictInsert m i r) = [(i, r)]
        exact dictInsert_filter_eq hn
    · rw [@List.filter_cons_of_neg _ (fun r => r.id == i) r rs (by simp [hr])]
      cases hlast : (rs.filter (fun r => r.id == i)).getLast? with
      | some r' => rfl
      | none =>
        have hrf : (r.id == i) = false := by simpa using hr
        rw [dictInsert_filter_ne hrf]

theorem dedup_map_snd_filter {i : String} : ∀ {m : List (String × IngestRecord)},
    (∀ p ∈ m, p.1 = p.2.id) →
    (m.map Prod.snd).filter (fun r => r.id == i) =
      (m.filter (fun p => p.1 == i)).map Prod.snd := by
  intro m
  induction m with
  | nil => intro _; rfl
  | cons a t ih =>
    intro hp
    have ha := hp a (List.mem_cons_self a t)
    have ht := ih (fun p hp' => hp p (List.mem_cons_of_mem a hp'))
    rw [List.map_cons]
    by_cases h : (a.2.id == i) = true
    · rw [@List.filter_cons_of_pos _ (fun r => r.id == i) a.2 (t.map Prod.snd) h,
        @List.filter_cons_of_pos _ (fun p => p.1 == i) a t
          (by show (a.1 == i) = true; rw [ha]; exact h),
        List.map_cons, ht]
    · rw [@List.filter_cons_of_neg _ (fun r => r.id == i) a.2 (t.map Prod.snd) h,
        @List.filter_cons_of_neg _ (fun p => p.1 == i) a t
          (by show ¬ (a.1 == i) = true; rw [ha]; exact h), ht]

/-- C5: within one ingestion batch, the deduplicated batch contains, for any
identifier, exactly the records `[last one with that id]` (or none): one
record per identifier, last-write-wins in batch order. -/
theorem dedup_last_write_wins (rs : List IngestRecord) (i : String) :
    (dedupLocal rs).filter (fun r => r.id == i) =
      ((rs.filter (fun r => r.id == i)).getLast?).toList := by
  unfold dedupLocal
  rw [dedup_map_snd_filter (foldl_dictInsert_pairing rs [] (by intro p hp; cases hp)),
    foldl_dictInsert_filter i rs [] (by intro p hp; cases hp) (by simp)]
  cases hlast : (rs.filter (fun r => r.id == i)).getLast? with
  | some r => rfl
  | none => rfl

/-! ## C9 — fail-soft deserialization on retrieval -/

theorem lookup_any {l : List (String × Json)} {k : String} {v : Json}
    (h : l.lookup k = some v) : (l.any (fun p => p.1 == k)) = true := by
  induction l with
  | nil => simp [List.lookup] at h
  | cons a t ih =>
    obtain ⟨k1, v1⟩ := a
    rw [List.any_cons]
    by_cases hk : (k == k1) = true
    · have hke : k1 = k := (beq_iff_eq.mp hk).symm
      simp [hke]
    · have hk' : (k == k1) = false := by simpa using hk
      simp only [List.lookup, hk'] at h
      simp [ih h]

/-- C9: for every hit whose stored `performers` or `context` field is a
malformed serialized string (the deserializer fails on it), processing still
succeeds: the result substitutes the empty list for a malformed `performers`
field and the empty object for a malformed `context` field, keeps the stored
text, and the record is returned to the caller (a one-hit response yields
exactly that record). -/
theorem retriever_failsoft (loads : String → Option Json) (hit : Json)
    (fl : List (String × Json))
    (hf : hit.get "fields" (.obj []) = .ok (.obj fl))
    (hmal : (∃ s, fl.lookup "performers" = some (.str s) ∧ loads s = none) ∨
            (∃ s, fl.lookup "context" = some (.str s) ∧ loads s = none)) :
    ∃ res, processHit loads hit = .ok res ∧
      (∀ s, fl.lookup "performers" = some (.str s) → loads s = none →
        res.performers = .arr []) ∧
      (∀ s, fl.lookup "context" = some (.str s) → loads s = none →
        res.context = .obj []) ∧
      res.text = (fl.lookup "chunk_text").getD .null ∧
      search loads (.obj [("result", .obj [("hits", .arr [hit])])]) = [res] := by
  cases hit with
  | obj hl =>
    have hrun : processHit loads (Json.obj hl) = .ok
        ⟨(hl.lookup "_score").getD .null,
         (fl.lookup "chunk_text").getD .null,
         (fl.lookup "headline").getD .null,
         (fl.lookup "event_date").getD .null,
         (if fl.any (fun p => p.1 == "performers") then
            match fl.lookup "performers" with
            | some (.str s) => (loads s).getD (.arr [])
            | _ => .arr []
          else .arr []),
         (if fl.any (fun p => p.1 == "context") then
            match fl.lookup "context" with
            | some (.str s) => (loads s).getD (.obj [])
            | _ => .obj []
          else .obj [])⟩ := by
      unfold processHit
      rw [hf]
      simp [Bind.bind, Except.bind, Json.member, Json.lookup?, Json.get]
    refine ⟨_, hrun, ?_, ?_, rfl, ?_⟩
    · intro s hs hls
      simp [lookup_any hs, hs, hls]
    · intro s hs hls
      simp [lookup_any hs, hs, hls]
    · unfold search searchBody
      simp [Json.get, Json.elems, Bind.bind, Except.bind, mapME, hrun]
  | null => simp [Json.get] at hf
  | bool b => simp [Json.get] at hf
  | num n => simp [Json.get] at hf
  | str s => simp [Json.get] at hf
  | arr xs => simp [Json.get] at hf

/-- Witness for C9 at a concrete hit with only its `performers` string
malformed (its `context` string is well-formed): the "either field" case. -/
theorem retriever_failsoft_witness :
    (oneBadHit.get "fields" (.obj []) = .ok (.obj oneBadHitFields) ∧
     oneBadHitFields.lookup "performers" = some (.str "\x7boops") ∧
     pickyLoads "\x7boops" = none) ∧
    (∃ res, processHit pickyLoads oneBadHit = .ok res ∧
      (∀ s, oneBadHitFields.lookup "performers" = some (.str s) →
        pickyLoads s = none → res.performers = .arr []) ∧
      (∀ s, oneBadHitFields.lookup "context" = some (.str s) →
        pickyLoads s = none → res.context = .obj []) ∧
      res.text = (oneBadHitFields.lookup "chunk_text").getD .null ∧
      search pickyLoads (.obj [("result", .obj [("hits", .arr [oneBadHit])])]) =
        [res]) :=
  ⟨⟨rfl, rfl, rfl⟩,
   retriever_failsoft pickyLoads oneBadHit oneBadHitFields rfl
     (Or.inl ⟨"\x7boops", rfl, rfl⟩)⟩

/-! ## C6 / C3 — the branch structure of text synthesis -/

theorem oddsDisplay_falsy {comp oddsJ : Json} (h : comp.get "odds" .null = .ok oddsJ)
    (hf : oddsJ.pyTruthy = false) : oddsDisplay comp = .ok (.str "N/A") := by
  unfold oddsDisplay
  rw [except_bind_ok]
  refine ⟨oddsJ, h, ?_⟩
  rw [if_neg (by simp [hf])]
  rfl

/-- Decomposition of a successful `transform_event_to_text` run: the output
is in the PREVIEW, LIVE GAME, or FINAL SCORE form according to the status
state. -/
theorem transform_branches (event : Json) (out : String)
    (h : transform_event_to_text event = .ok out) :
    ∃ (comp state oddsVal : Json)
      (matchup venue date score_line detail stats_block leader_text : String),
      compOf event = .ok comp ∧
      eventState event = .ok state ∧
      oddsDisplay comp = .ok oddsVal ∧
      ((state.isStr "pre" = true ∧
        out = "PREVIEW: " ++ matchup ++ " at " ++ venue ++ ". TIME: " ++ date ++
          ". ODDS: " ++ oddsVal.pyToStr ++ ". PROJECTED LEADERS: " ++ leader_text ++ ".") ∨
       (state.isStr "pre" = false ∧ state.isStr "in" = true ∧
        out = "LIVE GAME (" ++ detail ++ "): " ++ score_line ++ ". " ++ stats_block ++
          "LEADERS: " ++ leader_text ++ ".") ∨
       (state.isStr "pre" = false ∧ state.isStr "in" = false ∧
        out = "FINAL SCORE: " ++ score_line ++ ". " ++ stats_block ++
          "TOP PERFORMERS: " ++ leader_text ++ ".")) := by
  unfold transform_event_to_text at h
  simp only [except_bind_ok, except_pure_eq_ok] at h
  obtain ⟨comp, hcomp, statusObj, hso, state, hstate, detail, hdetail, matchup, hmat,
    compsJ, hcompsJ, competitors, hcompetitors, scoreParts, hscore, leaders, hleaders,
    leaderParts, hlp, tst, htst, venueObj, hvo, venue, hv, odds, hodds, hfin⟩ := h
  have hes : eventState event = .ok state := by
    unfold eventState
    rw [except_bind_ok]
    exact ⟨statusObj, hso, hstate⟩
  by_cases hpre : state.isStr "pre" = true
  · rw [if_pos hpre] at hfin
    rw [except_bind_ok] at hfin
    obtain ⟨date, hdate, hout⟩ := hfin
    exact ⟨comp, state, odds, matchup.pyToStr, venue.pyToStr, date.pyToStr,
      "", detail.pyToStr, "", String.intercalate " | " leaderParts,
      hcomp, hes, hodds, Or.inl ⟨hpre, (Except.ok.inj hout).symm⟩⟩
  · have hpre' : state.isStr "pre" = false := by simpa using hpre
    rw [if_neg (by simp [hpre'])] at hfin
    by_cases hin : state.isStr "in" = true
    · rw [if_pos hin] at hfin
      exact ⟨comp, state, odds, matchup.pyToStr, venue.pyToStr, "",
        String.intercalate " vs " scoreParts, detail.pyToStr,
        (if !tst.isEmpty then "TEAM STATS: " ++ tst ++ ". " else ""),
        String.intercalate " | " leaderParts,
        hcomp, hes, hodds, Or.inr (Or.inl ⟨hpre', hin, (Except.ok.inj hfin).symm⟩)⟩
    · have hin' : state.isStr "in" = false := by simpa using hin
      rw [if_neg (by simp [hin'])] at hfin
      exact ⟨comp, state, odds, matchup.pyToStr, venue.pyToStr, "",
        String.intercalate " vs " scoreParts, detail.pyToStr,
        (if !tst.isEmpty then "TEAM STATS: " ++ tst ++ ". " else ""),
        String.intercalate " | " leaderParts,
        hcomp, hes, hodds, Or.inr (Or.inr ⟨hpre', hin', (Except.ok.inj hfin).symm⟩)⟩

/-- C6, amended: text synthesis branches on the status state — a successful
run for an event in state `"pre"` yields the PREVIEW form (the summary starts
with `"PREVIEW: "`), and state `"post"` yields the FINAL SCORE form (starts
with `"FINAL SCORE: "`).  The claim's phrase-absence reading fails only
because interpolated field values are arbitrary (see the counterexample). -/
theorem text_branches_on_state (event : Json) (out : String)
    (h : transform_event_to_text event = .ok out) :
    (eventState event = .ok (.str "pre") → ∃ r, out = "PREVIEW: " ++ r) ∧
    (eventState event = .ok (.str "post") → ∃ r, out = "FINAL SCORE: " ++ r) := by
  obtain ⟨comp, state, oddsVal, matchup, venue, date, score_line, detail, stats_block,
    leader_text, hcomp, hes, hodds, hbr⟩ := transform_branches event out h
  constructor
  · intro hval
    have hst : state = .str "pre" := Except.ok.inj (hes.symm.trans hval)
    rcases hbr with ⟨_, hout⟩ | ⟨hf, _, _⟩ | ⟨hf, _, _⟩
    · refine ⟨matchup ++ " at " ++ venue ++ ". TIME: " ++ date ++ ". ODDS: " ++
        oddsVal.pyToStr ++ ". PROJECTED LEADERS: " ++ leader_text ++ ".", ?_⟩
      rw [hout]
      simp [String.append_assoc]
    · rw [hst] at hf
      simp [Json.isStr] at hf
    · rw [hst] at hf
      simp [Json.isStr] at hf
  · intro hval
    have hst : state = .str "post" := Except.ok.inj (hes.symm.trans hval)
    rcases hbr with ⟨hf, _⟩ | ⟨_, hf, _⟩ | ⟨_, _, hout⟩
    · rw [hst] at hf
      simp [Json.isStr] at hf
    · rw [hst] at hf
      simp [Json.isStr] at hf
    · refine ⟨score_line ++ ". " ++ stats_block ++ "TOP PERFORMERS: " ++ leader_text ++ ".", ?_⟩
      rw [hout]
      simp [String.append_assoc]

/-- Witness for the amended C6 at the concrete finished game. -/
theorem text_branches_on_state_witness :
    transform_event_to_text postGameEvent =
      .ok ("FINAL SCORE: TeamA (110) vs TeamB (98). TOP PERFORMERS: Assists: Star Guard (22 AST).") ∧
    eventState postGameEvent = .ok (.str "post") ∧
    (∃ r, ("FINAL SCORE: TeamA (110) vs TeamB (98). TOP PERFORMERS: Assists: Star Guard (22 AST)." : String) =
      "FINAL SCORE: " ++ r) :=
  ⟨rfl, rfl, (text_branches_on_state postGameEvent _ rfl).2 rfl⟩

/-- Decomposition of a successful `extract_smart_metadata` run on an event
file: the stored context's odds field is the value computed by `oddsMeta`
from the competition's odds list. -/
theorem metadata_context_odds (raw : Json) (fn sid : String) (m : SportsMetadata)
    (hfn : strContains fn "news" = false)
    (hm : extract_smart_metadata raw fn sid = .ok m) :
    ∃ (comp odds_list odds : Json) (ctx : GameContext),
      compOf raw = .ok comp ∧
      comp.get "odds" (.arr []) = .ok odds_list ∧
      oddsMeta odds_list = .ok odds ∧
      m.context = some ctx ∧ ctx.odds = odds := by
  unfold extract_smart_metadata at hm
  simp only [hfn, Bool.not_false, if_true, except_bind_ok, except_pure_eq_ok] at hm
  obtain ⟨comp, hcomp, statusObj, hso, compsJ, hcompsJ, compList, hcl, teamScores, hts,
    raw_leaders, hrl, perf, hperf, weatherObj, hwo, weather, hw, odds_list, hol, odds, ho,
    venueJ, hvj, venue, hv, venueJ2, hvj2, addr, haddr, location, hloc, broadcast, hb,
    tst, htst, headline, hh, event_date, hed, status, hst, hrec⟩ := hm
  refine ⟨comp, odds_list, odds, ⟨venue, location, weather, odds, broadcast⟩,
    hcomp, hol, ho, ?_, rfl⟩
  rw [← Except.ok.inj hrec]

/-- C3, amended: for an event whose competition has no `odds` array, the
preview text displays the literal `"N/A"` — and the stored structured context
also carries an `odds` field set to the placeholder string `"N/A"` (the
field is stored, not omitted). -/
theorem odds_display_and_storage (raw : Json) (fn sid : String) (m : SportsMetadata)
    (out : String) (comp : Json)
    (hfn : strContains fn "news" = false)
    (hcomp : compOf raw = .ok comp)
    (hodds : comp.lookup? "odds" = none)
    (hm : extract_smart_metadata raw fn sid = .ok m)
    (hst : eventState raw = .ok (.str "pre"))
    (hout : transform_event_to_text raw = .ok out) :
    (∃ ctx, m.context = some ctx ∧ ctx.odds = .str "N/A") ∧
    (∃ a b, out = a ++ "ODDS: N/A" ++ b) := by
  obtain ⟨comp1, odds_list, odds, ctx, hcomp1, hol, ho, hctx, hco⟩ :=
    metadata_context_odds raw fn sid m hfn hm
  have hc1 : comp1 = comp := Except.ok.inj (hcomp1.symm.trans hcomp)
  rw [hc1] at hol
  have hOL : odds_list = .arr [] := by
    cases comp with
    | obj l =>
      simp only [Json.lookup?] at hodds
      simp only [Json.get, hodds, Option.getD] at hol
      exact (Except.ok.inj hol).symm
    | null => simp [Json.get] at hol
    | bool b => simp [Json.get] at hol
    | num n => simp [Json.get] at hol
    | str s => simp [Json.get] at hol
    | arr xs => simp [Json.get] at hol
  have hOdds : odds = .str "N/A" := by
    rw [hOL] at ho
    unfold oddsMeta at ho
    rw [if_neg (by simp [Json.pyTruthy])] at ho
    exact (Except.ok.inj ho).symm
  refine ⟨⟨ctx, hctx, by rw [hco, hOdds]⟩, ?_⟩
  obtain ⟨comp2, state, oddsVal, matchup, venue, date, score_line, detail, stats_block,
    leader_text, hcomp2, hes, hod2, hbr⟩ := transform_branches raw out hout
  have hc2 : comp2 = comp := Except.ok.inj (hcomp2.symm.trans hcomp)
  rw [hc2] at hod2
  have hOV : oddsVal = .str "N/A" := by
    have hdisp : oddsDisplay comp = .ok (.str "N/A") := by
      apply @oddsDisplay_falsy comp Json.null ?_ rfl
      cases comp with
      | obj l =>
        simp only [Json.lookup?] at hodds
        simp [Json.get, hodds]
      | null => simp [Json.get] at hol
      | bool b => simp [Json.get] at hol
      | num n => simp [Json.get] at hol
      | str s => simp [Json.get] at hol
      | arr xs => simp [Json.get] at hol
    exact Except.ok.inj (hod2.symm.trans hdisp)
  have hstate : state = .str "pre" := Except.ok.inj (hes.symm.trans hst)
  rcases hbr with ⟨_, ho2⟩ | ⟨hf, _, _⟩ | ⟨hf, _, _⟩
  · rw [hOV] at ho2
    have hna : (Json.str "N/A").pyToStr = "N/A" := rfl
    rw [hna] at ho2
    refine ⟨"PREVIEW: " ++ matchup ++ " at " ++ venue ++ ". TIME: " ++ date ++ ". ",
            ". PROJECTED LEADERS: " ++ leader_text ++ ".", ?_⟩
    rw [ho2]
    simp only [String.append_assoc]
    have key : ∀ s : String, (". ODDS: " : String) ++ ("N/A" ++ s) = ". " ++ ("ODDS: N/A" ++ s) := by
      intro s
      rw [← String.append_assoc, ← String.append_assoc]
      rfl
    rw [key]
  · rw [hstate] at hf
    simp [Json.isStr] at hf
  · rw [hstate] at hf
    simp [Json.isStr] at hf

/-- Witness for the amended C3 at the concrete no-odds event. -/
theorem odds_display_and_storage_witness :
    ∃ m out, extract_smart_metadata noOddsEvent "nba-score.json" "doc-401777" = .ok m ∧
      transform_event_to_text noOddsEvent = .ok out ∧
      ((∃ ctx, m.context = some ctx ∧ ctx.odds = .str "N/A") ∧
       (∃ a b, out = a ++ "ODDS: N/A" ++ b)) :=
  ⟨_, _, rfl, rfl, odds_display_and_storage noOddsEvent "nba-score.json" "doc-401777" _ _
    (Json.obj [("venue", Json.obj [("fullName", Json.str "Arena")])]) rfl rfl rfl rfl rfl rfl⟩

/-! ## C4 (amended) — well-formed shapes parse without raising -/

theorem contains_eq_false_iff {l : List Char} {c : Char} :
    (l.contains c) = false ↔ c ∉ l := by
  have h := List.elem_eq_mem c l
  constructor
  · intro hf hm
    rw [show l.contains c = List.elem c l from rfl, h] at hf
    simp [hm] at hf
  · intro hm
    rw [show l.contains c = List.elem c l from rfl, h]
    simp [hm]

theorem stripChars_cons_space {c : Char} (hc : isPySpace c = true) (l : List Char) :
    stripChars (c :: l) = stripChars l := by
  unfold stripChars
  rw [List.dropWhile_cons, if_pos hc]

theorem mem_stripChars {x : Char} {l : List Char} (h : x ∈ stripChars l) : x ∈ l := by
  unfold stripChars at h
  rw [List.mem_reverse] at h
  have h2 := (List.dropWhile_sublist _).subset h
  rw [List.mem_reverse] at h2
  exact (List.dropWhile_sublist _).subset h2

theorem stripChars_idem (x : List Char) : stripChars (stripChars x) = stripChars x := by
  unfold stripChars
  have h1 : ((x.dropWhile isPySpace).reverse.dropWhile isPySpace).reverse.dropWhile isPySpace =
      ((x.dropWhile isPySpace).reverse.dropWhile isPySpace).reverse := by
    cases hbr : ((x.dropWhile isPySpace).reverse.dropWhile isPySpace).reverse with
    | nil => rfl
    | cons c t =>
      rw [List.dropWhile_cons, if_neg ?_]
      have hb : (x.dropWhile isPySpace).reverse.dropWhile isPySpace = t.reverse ++ [c] := by
        have h2 := congrArg List.reverse hbr
        simpa using h2
      obtain ⟨u, hu⟩ := (List.dropWhile_suffix isPySpace :
        (x.dropWhile isPySpace).reverse.dropWhile isPySpace <:+ (x.dropWhile isPySpace).reverse)
      have hlast : (x.dropWhile isPySpace).reverse.getLast? = some c := by
        rw [← hu, List.getLast?_append, hb, List.getLast?_concat]
        rfl
      rw [List.getLast?_reverse] at hlast
      have hhd := List.head?_dropWhile_not isPySpace x
      rw [hlast] at hhd
      simp only at hhd
      simp [hhd]
  rw [h1, List.reverse_reverse, List.dropWhile_idempotent]

theorem splitChar_ne_nil (sep : Char) (s : List Char) : splitChar sep s ≠ [] := by
  cases s with
  | nil => simp [splitChar]
  | cons c t =>
    by_cases hc : c = sep
    · simp [splitChar, hc]
    · simp only [splitChar, if_neg hc]
      cases splitChar sep t <;> simp

theorem splitChar_no_sep (sep : Char) :
    ∀ (s : List Char) (p : List Char), p ∈ splitChar sep s → sep ∉ p := by
  intro s
  induction s with
  | nil =>
    intro p hp
    simp [splitChar] at hp
    subst hp
    simp
  | cons c t ih =>
    intro p hp
    by_cases hc : c = sep
    · simp only [splitChar, if_pos hc] at hp
      rcases List.mem_cons.mp hp with rfl | hp'
      · simp
      · exact ih p hp'
    · simp only [splitChar, if_neg hc] at hp
      cases hr : splitChar sep t with
      | nil => exact absurd hr (splitChar_ne_nil sep t)
      | cons h0 t' =>
        rw [hr] at hp
        rcases List.mem_cons.mp hp with rfl | hp'
        · intro hmem
          rcases List.mem_cons.mp hmem with he | hmem'
          · exact hc he.symm
          · exact ih h0 (by rw [hr]; exact List.mem_cons_self _ _) hmem'
        · exact ih p (by rw [hr]; exact List.mem_cons_of_mem _ hp')

theorem splitChar_not_mem {sep : Char} : ∀ {s : List Char}, sep ∉ s → splitChar sep s = [s] := by
  intro s
  induction s with
  | nil => intro _; rfl
  | cons c t ih =>
    intro h
    have hc : ¬ (c = sep) := fun he => h (by rw [← he]; exact List.mem_cons_self c t)
    have ht : sep ∉ t := fun hm => h (List.mem_cons_of_mem c hm)
    simp only [splitChar, if_neg hc]
    rw [ih ht]

theorem splitChar_append_sep {sep : Char} {b : List Char} :
    ∀ {a : List Char}, sep ∉ a →
    splitChar sep (a ++ sep :: b) = a :: splitChar sep b := by
  intro a
  induction a with
  | nil => intro _; simp [splitChar]
  | cons c t ih =>
    intro h
    have hc : ¬ (c = sep) := fun he => h (by rw [← he]; exact List.mem_cons_self c t)
    have ht : sep ∉ t := fun hm => h (List.mem_cons_of_mem c hm)
    show splitChar sep (c :: (t ++ sep :: b)) = (c :: t) :: splitChar sep b
    simp only [splitChar, if_neg hc]
    rw [ih ht]

theorem splitChar_cons_ne {sep c : Char} (hc : ¬ (c = sep)) (s : List Char) :
    ∃ h t, splitChar sep s = h :: t ∧ splitChar sep (c :: s) = (c :: h) :: t := by
  cases hr : splitChar sep s with
  | nil => exact absurd hr (splitChar_ne_nil sep s)
  | cons h t =>
    refine ⟨h, t, rfl, ?_⟩
    simp only [splitChar, if_neg hc]
    rw [hr]

theorem splitChar_joinWith :
    ∀ (qs : List (List Char)) (q : List Char), (',' : Char) ∉ q →
    (∀ p ∈ qs, (',' : Char) ∉ p) →
    splitChar ',' (joinWith [',', ' '] (q :: qs)) = q :: qs.map (fun p => ' ' :: p) := by
  intro qs
  induction qs with
  | nil =>
    intro q hq _
    simp [joinWith, splitChar_not_mem hq]
  | cons p ps ih =>
    intro q hq hps
    have hj : joinWith [',', ' '] (q :: p :: ps) =
        q ++ ',' :: ' ' :: joinWith [',', ' '] (p :: ps) := by
      show q ++ [',', ' '] ++ joinWith [',', ' '] (p :: ps) = _
      rw [List.append_assoc]
      rfl
    rw [hj, splitChar_append_sep hq]
    obtain ⟨h0, t0, hr, hcons⟩ := splitChar_cons_ne (show ¬ ((' ' : Char) = ',') by decide)
      (joinWith [',', ' '] (p :: ps))
    rw [hcons]
    rw [ih p (hps p (List.mem_cons_self _ _)) (fun x hx => hps x (List.mem_cons_of_mem _ hx))] at hr
    injection hr with h1 h2
    rw [← h1, ← h2]
    rfl

theorem clean_of_empty {val : String} (h : val.isEmpty = true) :
    clean_display_value val = "N/A" := by
  unfold clean_display_value
  rw [if_pos h]

theorem clean_of_all_dropped {val : String} (h1 : val.isEmpty = false)
    (hf : (splitChar ',' val.data).filter (fun p => !p.contains '/') = []) :
    clean_display_value val = val := by
  simp only [clean_display_value]
  rw [hf]
  simp [h1]

theorem clean_of_filter_cons {val : String} {q : List Char} {qt : List (List Char)}
    (h1 : val.isEmpty = false)
    (hf : (splitChar ',' val.data).filter (fun p => !p.contains '/') = q :: qt) :
    clean_display_value val = String.mk (joinWith (", ".data) ((q :: qt).map stripChars)) := by
  simp only [clean_display_value]
  rw [hf]
  simp [h1]

/-- C10, counterexample: `clean_display_value` is not idempotent — for the
blank input `" "` the first application yields `""` and the second turns that
into `"N/A"`. -/
theorem clean_idem_counterexample :
    clean_display_value (clean_display_value " ") ≠ clean_display_value " " := by decide

/-- C10, amended: `clean_display_value` is idempotent on every input whose
cleaned value is non-empty; only inputs like `" "` that clean to the empty
string (non-empty, comma-free after dropping, all-blank components) change
under a second application (to `"N/A"`). -/
theorem clean_idem_of_ne_empty (s : String) (h : clean_display_value s ≠ "") :
    clean_display_value (clean_display_value s) = clean_display_value s := by
  by_cases hs : s.isEmpty = true
  · rw [clean_of_empty hs]
    decide
  · have hs' : s.isEmpty = false := by simpa using hs
    cases hf : (splitChar ',' s.data).filter (fun p => !p.contains '/') with
    | nil =>
      rw [clean_of_all_dropped hs' hf]
      exact clean_of_all_dropped hs' hf
    | cons q qt =>
      have hc := clean_of_filter_cons hs' hf
      have hsplit_mem : ∀ p ∈ q :: qt, p ∈ splitChar ',' s.data := by
        intro p hp
        have hp' : p ∈ (splitChar ',' s.data).filter (fun p => !p.contains '/') := by
          rw [hf]; exact hp
        exact (List.filter_sublist _).subset hp'
      have hnc : ∀ p ∈ q :: qt, (',' : Char) ∉ p := fun p hp =>
        splitChar_no_sep ',' s.data p (hsplit_mem p hp)
      have hslash : ∀ p ∈ q :: qt, ('/' : Char) ∉ p := by
        intro p hp
        have hmem : p ∈ (splitChar ',' s.data).filter (fun p => !p.contains '/') := by
          rw [hf]; exact hp
        have h2 := (List.mem_filter.mp hmem).2
        have hcf : (p.contains '/') = false := by simpa using h2
        exact contains_eq_false_iff.mp hcf
      have hdata : (", " : String).data = [',', ' '] := rfl
      rw [hc, hdata]
      have hmapQ : (q :: qt).map stripChars = stripChars q :: qt.map stripChars := rfl
      rw [hmapQ]
      have hne : (String.mk (joinWith [',', ' '] (stripChars q :: qt.map stripChars))).isEmpty = false := by
        rcases Bool.eq_false_or_eq_true ((String.mk (joinWith [',', ' '] (stripChars q :: qt.map stripChars))).isEmpty) with hb | hb
        · exfalso
          apply h
          rw [hc, hdata, hmapQ]
          exact (String.isEmpty_iff _).mp hb
        · exact hb
      have hQcomma : (',' : Char) ∉ stripChars q := fun hm =>
        hnc q (List.mem_cons_self _ _) (mem_stripChars hm)
      have hQscomma : ∀ p ∈ qt.map stripChars, (',' : Char) ∉ p := by
        intro p hp hm
        obtain ⟨pe, hpe, rfl⟩ := List.mem_map.mp hp
        exact hnc pe (List.mem_cons_of_mem _ hpe) (mem_stripChars hm)
      have hsplit : splitChar ','
          (String.mk (joinWith [',', ' '] (stripChars q :: qt.map stripChars))).data =
          stripChars q :: (qt.map stripChars).map (fun p => ' ' :: p) := by
        show splitChar ',' (joinWith [',', ' '] (stripChars q :: qt.map stripChars)) = _
        exact splitChar_joinWith (qt.map stripChars) (stripChars q) hQcomma hQscomma
      have hfilter : (splitChar ','
          (String.mk (joinWith [',', ' '] (stripChars q :: qt.map stripChars))).data).filter
            (fun p => !p.contains '/') =
          stripChars q :: (qt.map stripChars).map (fun p => ' ' :: p) := by
        rw [hsplit]
        apply List.filter_eq_self.mpr
        intro p hp
        have hps : ('/' : Char) ∉ p := by
          rcases List.mem_cons.mp hp with rfl | hp'
          · intro hm
            exact hslash q (List.mem_cons_self _ _) (mem_stripChars hm)
          · obtain ⟨pe, hpe, rfl⟩ := List.mem_map.mp hp'
            obtain ⟨pe0, hpe0, rfl⟩ := List.mem_map.mp hpe
            intro hm
            rcases List.mem_cons.mp hm with he | hm'
            · exact absurd he (by decide)
            · exact hslash pe0 (List.mem_cons_of_mem _ hpe0) (mem_stripChars hm')
        have hcf : (p.contains '/') = false := contains_eq_false_iff.mpr hps
        rw [hcf]
        rfl
      rw [clean_of_filter_cons hne hfilter, hdata]
      have hmap2 : (stripChars q :: (qt.map stripChars).map (fun p => ' ' :: p)).map stripChars =
          stripChars q :: qt.map stripChars := by
        rw [List.map_cons, stripChars_idem, List.map_map]
        congr 1
        have hcong : ∀ pe ∈ qt, (stripChars ∘ fun p => ' ' :: p) (stripChars pe) = stripChars pe := by
          intro pe _
          show stripChars (' ' :: stripChars pe) = stripChars pe
          rw [stripChars_cons_space (by decide), stripChars_idem]
        calc (qt.map stripChars).map (stripChars ∘ fun p => ' ' :: p)
            = qt.map ((stripChars ∘ fun p => ' ' :: p) ∘ stripChars) := by rw [List.map_map]
          _ = qt.map stripChars := List.map_congr_left (fun pe hpe => hcong pe hpe)
      rw [hmap2]

/-- Witness for the amended C10 at a concrete cleaned value. -/
theorem clean_idem_of_ne_empty_witness :
    clean_display_value "354/492, 18 TD" ≠ "" ∧
    clean_display_value (clean_display_value "354/492, 18 TD") =
      clean_display_value "354/492, 18 TD" :=
  ⟨by decide, clean_idem_of_ne_empty "354/492, 18 TD" (by decide)⟩

/-! ## C7 — canonical (key-sorted) content hashing

`extract_smart_metadata` computes `content_hash` as the MD5 of
`json.dumps(raw_data, sort_keys=True)`: the serialization sorts the keys of
every object at every nesting level, so two raw records that differ only in
the order of their dictionary keys serialize identically and hash
identically.  `sortJson_eq_of_equiv` is the crux: the canonicalization pass
maps key-reorder-equivalent values to the same tree. -/

theorem sortEntries_eq_map (l : List (String × Json)) :
    sortEntries l = l.map (fun p => (p.1, sortJson p.2)) := by
  induction l with
  | nil => rfl
  | cons p t ih =>
    obtain ⟨k, v⟩ := p
    simp [sortEntries, ih]

theorem sortArr_eq_map (xs : List Json) : sortArr xs = xs.map sortJson := by
  induction xs with
  | nil => rfl
  | cons x t ih => simp [sortArr, ih]

theorem keyLe_trans : ∀ a b c : String × Json,
    keyLe a b = true → keyLe b c = true → keyLe a c = true := by
  intro a b c h1 h2
  simp only [keyLe, decide_eq_true_eq] at h1 h2 ⊢
  exact le_trans h1 h2

theorem keyLe_total : ∀ a b : String × Json, (keyLe a b || keyLe b a) = true := by
  intro a b
  simp only [keyLe, Bool.or_eq_true, decide_eq_true_eq]
  exact le_total a.1 b.1

theorem sorted_perm_nodupkeys_eq :
    ∀ {l1 l2 : List (String × Json)}, l1.Perm l2 →
      l1.Pairwise (fun a b => keyLe a b = true) →
      l2.Pairwise (fun a b => keyLe a b = true) →
      (l1.map Prod.fst).Nodup → l1 = l2 := by
  intro l1
  induction l1 with
  | nil =>
    intro l2 hp _ _ _
    exact hp.nil_eq
  | cons a t ih =>
    intro l2 hp hs1 hs2 hnd
    have ha2 : a ∈ l2 := hp.subset (List.mem_cons_self a t)
    cases l2 with
    | nil => exact absurd ha2 (by simp)
    | cons b t2 =>
      have hab : a = b := by
        rcases List.mem_cons.mp ha2 with he | ha2'
        · exact he
        · have hb1 : b ∈ a :: t := hp.symm.subset (List.mem_cons_self b t2)
          rcases List.mem_cons.mp hb1 with he | hb1'
          · exact he.symm
          · have h1 : keyLe a b = true := (List.pairwise_cons.mp hs1).1 b hb1'
            have h2 : keyLe b a = true := (List.pairwise_cons.mp hs2).1 a ha2'
            have hk : a.1 = b.1 := by
              simp only [keyLe, decide_eq_true_eq] at h1 h2
              exact le_antisymm h1 h2
            rw [List.map_cons, List.nodup_cons] at hnd
            exact absurd (List.mem_map.mpr ⟨b, hb1', hk.symm⟩) hnd.1
      subst hab
      rw [List.map_cons, List.nodup_cons] at hnd
      rw [ih hp.cons_inv (List.pairwise_cons.mp hs1).2 (List.pairwise_cons.mp hs2).2 hnd.2]

theorem sortEntries_keys (l : List (String × Json)) :
    (sortEntries l).map Prod.fst = l.map Prod.fst := by
  rw [sortEntries_eq_map, List.map_map]
  rfl

theorem mem_sortEntries {k : String} {v : Json} {l : List (String × Json)} :
    (k, v) ∈ sortEntries l ↔ ∃ v0, (k, v0) ∈ l ∧ v = sortJson v0 := by
  rw [sortEntries_eq_map]
  constructor
  · intro h
    obtain ⟨p, hp, hpe⟩ := List.mem_map.mp h
    obtain ⟨k0, v0⟩ := p
    obtain ⟨hk, hv⟩ := Prod.mk.injEq .. ▸ hpe
    exact ⟨v0, by rwa [← hk], hv.symm⟩
  · intro ⟨v0, hv0, he⟩
    exact List.mem_map.mpr ⟨(k, v0), hv0, by rw [he]⟩

theorem sortJson_eq_of_equiv : ∀ {a b : Json}, JEquiv a b → sortJson a = sortJson b := by
  intro a b h
  induction h with
  | null => rfl
  | bool b => rfl
  | num n => rfl
  | str s => rfl
  | arr hlen helem ih =>
    show Json.arr (sortArr _) = Json.arr (sortArr _)
    congr 1
    rw [sortArr_eq_map, sortArr_eq_map]
    apply List.ext_get
    · simp [hlen]
    · intro i h1 h2
      rw [List.get_map, List.get_map]
      exact ih i _ _

  | @obj l1 l2 hn1 hn2 hkeys hval ih =>
    show Json.obj ((sortEntries _).mergeSort keyLe) = Json.obj ((sortEntries _).mergeSort keyLe)
    congr 1
    have hA : ((sortEntries l1).map Prod.fst).Nodup := by rw [sortEntries_keys]; exact hn1
    have hB : ((sortEntries l2).map Prod.fst).Nodup := by rw [sortEntries_keys]; exact hn2
    have hAn : (sortEntries l1).Nodup := hA.of_map _
    have hBn : (sortEntries l2).Nodup := hB.of_map _
    have hAB : (sortEntries l1).Perm (sortEntries l2) := by
      rw [List.perm_ext_iff_of_nodup hAn hBn]
      intro p
      obtain ⟨k, v⟩ := p
      rw [mem_sortEntries, mem_sortEntries]
      constructor
      · intro ⟨v0, hv0, he⟩
        have hk2 : k ∈ l2.map Prod.fst := by
          rw [← hkeys.mem_iff]
          exact List.mem_map.mpr ⟨(k, v0), hv0, rfl⟩
        obtain ⟨p2, hp2, hpk⟩ := List.mem_map.mp hk2
        obtain ⟨k2, w⟩ := p2
        obtain rfl : k2 = k := hpk
        refine ⟨w, hp2, ?_⟩
        rw [he, ih _ v0 w hv0 hp2]
      · intro ⟨v0, hv0, he⟩
        have hk1 : k ∈ l1.map Prod.fst := by
          rw [hkeys.mem_iff]
          exact List.mem_map.mpr ⟨(k, v0), hv0, rfl⟩
        obtain ⟨p1, hp1, hpk⟩ := List.mem_map.mp hk1
        obtain ⟨k1, w⟩ := p1
        obtain rfl : k1 = k := hpk
        refine ⟨w, hp1, ?_⟩
        rw [he, ih _ w v0 hp1 hv0]
    apply sorted_perm_nodupkeys_eq
    · exact ((List.mergeSort_perm _ _).trans hAB).trans (List.mergeSort_perm _ _).symm
    · exact List.sorted_mergeSort keyLe_trans keyLe_total _
    · exact List.sorted_mergeSort keyLe_trans keyLe_total _
    · have := ((List.mergeSort_perm (sortEntries l1) keyLe).map Prod.fst).nodup_iff
      exact this.mpr hA

/-- C7: the content hash is the digest of the canonical key-sorted
serialization, so any two raw records that are equal up to reordering of
object keys (at every nesting level) receive the same content hash. -/
theorem content_hash_reorder_invariant (a b : Json) (h : JEquiv a b) :
    content_hash a = content_hash b := by
  unfold content_hash dumps
  rw [sortJson_eq_of_equiv h]

/-- Witness for C7: two concrete records with keys reordered at both nesting
levels are key-reorder equivalent and hash identically. -/
theorem content_hash_reorder_invariant_witness :
    JEquiv reorderedA reorderedB ∧ content_hash reorderedA = content_hash reorderedB := by
  have hinner : JEquiv (.obj [("y", .str "s"), ("x", .null)])
      (.obj [("x", .null), ("y", .str "s")]) := by
    apply JEquiv.obj (by decide) (by decide) (by decide)
    intro k v1 v2 h1 h2
    rcases List.mem_cons.mp h1 with h1' | h1'
    · injection h1' with hk1 hv1
      rcases List.mem_cons.mp h2 with h2' | h2'
      · injection h2' with hk2 hv2
        exact absurd (hk1.symm.trans hk2) (by decide)
      · rcases List.mem_cons.mp h2' with h2'' | h2''
        · injection h2'' with hk2 hv2
          rw [hv1, hv2]
          exact JEquiv.str "s"
        · cases h2''
    · rcases List.mem_cons.mp h1' with h1'' | h1''
      · injection h1'' with hk1 hv1
        rcases List.mem_cons.mp h2 with h2' | h2'
        · injection h2' with hk2 hv2
          rw [hv1, hv2]
          exact JEquiv.null
        · rcases List.mem_cons.mp h2' with h2'' | h2''
          · injection h2'' with hk2 hv2
            exact absurd (hk1.symm.trans hk2) (by decide)
          · cases h2''
      · cases h1''
  have houter : JEquiv reorderedA reorderedB := by
    apply JEquiv.obj (by decide) (by decide) (by decide)
    intro k v1 v2 h1 h2
    rcases List.mem_cons.mp h1 with h1' | h1'
    · injection h1' with hk1 hv1
      rcases List.mem_cons.mp h2 with h2' | h2'
      · injection h2' with hk2 hv2
        exact absurd (hk1.symm.trans hk2) (by decide)
      · rcases List.mem_cons.mp h2' with h2'' | h2''
        · injection h2'' with hk2 hv2
          rw [hv1, hv2]
          exact JEquiv.num 2
        · cases h2''
    · rcases List.mem_cons.mp h1' with h1'' | h1''
      · injection h1'' with hk1 hv1
        rcases List.mem_cons.mp h2 with h2' | h2'
        · injection h2' with hk2 hv2
          rw [hv1, hv2]
          exact hinner
        · rcases List.mem_cons.mp h2' with h2'' | h2''
          · injection h2'' with hk2 hv2
            exact absurd (hk1.symm.trans hk2) (by decide)
          · cases h2''
      · cases h1''
  exact ⟨houter, content_hash_reorder_invariant _ _ houter⟩
